import Mathlib

/-
Verification of the ELMS extractor core against its specification.
The Python sources (elms_extractor.py and backend/app.py) are shallowly
embedded below: strings are lists of characters, HTTP responses and parsed
HTML documents are explicit data, and every fallible operation returns an
Except value.  Each definition mirrors one function of the source.
-/

namespace Elms

/-- Whitespace characters recognised by the Python regex class for spaces
and by str.strip with no argument (ASCII range). -/
def pySpace (c : Char) : Bool :=
  c == ' ' || c == '\t' || c == '\n' || c == '\r' || c == '\x0b' || c == '\x0c'

/-- Python str.strip with no argument: remove leading and trailing
whitespace. -/
def stripWs (l : List Char) : List Char :=
  ((l.dropWhile pySpace).reverse.dropWhile pySpace).reverse

/-- Python str.strip with an explicit character argument: remove leading and
trailing occurrences of that character. -/
def stripChar (a : Char) (l : List Char) : List Char :=
  ((l.dropWhile (fun c => c == a)).reverse.dropWhile (fun c => c == a)).reverse

/-- Python str.replace with single-character arguments. -/
def replaceChar (a b : Char) : List Char → List Char
  | [] => []
  | c :: r => (if c = a then b else c) :: replaceChar a b r

/-- Helper for the regex substitution in the fallback branch of
derive_course_code: each maximal run of characters outside A-Za-z0-9 is
collapsed to a single underscore.  The flag records whether the previous
character belonged to such a run. -/
def collapseNonAlnumAux : List Char → Bool → List Char
  | [], _ => []
  | c :: r, prev =>
    if c.isAlphanum then c :: collapseNonAlnumAux r false
    else if prev then collapseNonAlnumAux r true
    else '_' :: collapseNonAlnumAux r true

/-- Literal fallback course code used when everything else is empty. -/
def literalFallback : List Char := "course".data

/-- The fallback value computed on entry of derive_course_code: collapse
runs of non-alphanumeric characters to underscores, then strip leading and
trailing underscores. -/
def fallbackCode (l : List Char) : List Char :=
  stripChar '_' (collapseNonAlnumAux l false)

def strSpring : List Char := "Spring".data
def strFall : List Char := "Fall".data
def strSummer : List Char := "Summer".data

/-- Match a literal character sequence and return the remainder. -/
def dropLit : List Char → List Char → Option (List Char)
  | [], l => some l
  | _ :: _, [] => none
  | p :: ps, c :: cs => if c = p then dropLit ps cs else none

/-- The alternation over the three term literals, tried in the order of the
source pattern. -/
def matchTerm (l : List Char) : Option (List Char) :=
  match dropLit strSpring l with
  | some r => some r
  | none =>
    match dropLit strFall l with
    | some r => some r
    | none => dropLit strSummer l

/-- Tail of the pattern: one whitespace character followed by the greedy
nonempty run of characters other than a colon; the run is the captured
subject segment. -/
def wsSubject : List Char → Option (List Char)
  | [] => none
  | c :: r =>
    if pySpace c then
      (if r.takeWhile (fun d => d ≠ ':') = [] then none
       else some (r.takeWhile (fun d => d ≠ ':')))
    else none

/-- One backtracking attempt of the year part: consume exactly k digit
characters (possible only when the leading digit run has at least k of
them) and then the whitespace-and-subject tail. -/
def digitsTry (l : List Char) (k : Nat) : Option (List Char) :=
  if 2 ≤ k ∧ k ≤ (l.takeWhile Char.isDigit).length then wsSubject (l.drop k)
  else none

/-- Two to four digits, greedy with backtracking as in the source regex:
four digits are tried first, then three, then two; each attempt must be
followed by the whitespace-and-subject tail. -/
def digitsSubject (l : List Char) : Option (List Char) :=
  match digitsTry l 4 with
  | some g => some g
  | none =>
    match digitsTry l 3 with
    | some g => some g
    | none => digitsTry l 2

/-- Attempt the whole pattern at one position of the title. -/
def tryAt (l : List Char) : Option (List Char) :=
  match matchTerm l with
  | none => none
  | some r =>
    match r with
    | [] => none
    | c :: r2 => if pySpace c then digitsSubject r2 else none

/-- Python re.search: try the pattern at every position from the left and
return the first captured subject segment. -/
def reSearchSubject : List Char → Option (List Char)
  | [] => none
  | c :: r =>
    match tryAt (c :: r) with
    | some g => some g
    | none => reSearchSubject r

/-- Embedding of _derive_course_code from elms_extractor.py. -/
def derive_course_code (course_name : List Char) : List Char :=
  let fallback := fallbackCode course_name
  match reSearchSubject course_name with
  | none => if fallback = [] then literalFallback else fallback
  | some g =>
    let code := replaceChar '/' '_' (replaceChar ' ' '_' (stripWs g))
    if code = [] then (if fallback = [] then literalFallback else fallback) else code

/-
Specification-side definitions for claim C1.  The claim describes the
course-code derivation as a pattern match for term, year and subject where
the subject segment runs up to a colon; the claimed pattern therefore
requires an actual colon after the subject.  The source regex does not.
-/

/-- Claimed tail of the pattern: one whitespace character, then the subject
segment running up to a colon, which must actually be present. -/
def claimSubjectTail : List Char → Option (List Char)
  | [] => none
  | c :: r =>
    if pySpace c then
      (match r.dropWhile (fun d => d ≠ ':') with
       | ':' :: _ =>
         if r.takeWhile (fun d => d ≠ ':') = [] then none
         else some (r.takeWhile (fun d => d ≠ ':'))
       | _ => none)
    else none

/-- Claimed year: a maximal run of two to four digits followed by the
claimed tail. -/
def claimDigitsSubject (l : List Char) : Option (List Char) :=
  if 2 ≤ (l.takeWhile Char.isDigit).length ∧ (l.takeWhile Char.isDigit).length ≤ 4 then
    claimSubjectTail (l.drop (l.takeWhile Char.isDigit).length)
  else none

/-- Claimed pattern at one position: a term, one whitespace character, the
year, then the claimed tail. -/
def claimTryAt (l : List Char) : Option (List Char) :=
  match matchTerm l with
  | none => none
  | some r =>
    match r with
    | [] => none
    | c :: r2 => if pySpace c then claimDigitsSubject r2 else none

/-- Claimed search: first position at which the claimed pattern matches. -/
def claimSearch : List Char → Option (List Char)
  | [] => none
  | c :: r =>
    match claimTryAt (c :: r) with
    | some g => some g
    | none => claimSearch r

/-- Claim C1 as written: on a match the code is the subject segment with
spaces and slashes replaced by underscores; otherwise the collapsed and
trimmed fallback; if that is empty, the literal fallback code. -/
def derive_course_code_claim (course_name : List Char) : List Char :=
  match claimSearch course_name with
  | some subj => replaceChar '/' '_' (replaceChar ' ' '_' subj)
  | none =>
    let fb := fallbackCode course_name
    if fb = [] then literalFallback else fb

/-
Amended specification for claim C1: the pattern does not require a colon
after the subject; the subject segment is the maximal nonempty run of
non-colon characters after the year and its following whitespace; it is
trimmed of surrounding whitespace before spaces and slashes are replaced,
and if the result is empty the fallback tier applies.
-/

/-- Amended tail: one whitespace character then the maximal nonempty run of
non-colon characters, with no requirement that a colon follows. -/
def amendSubjectTail : List Char → Option (List Char)
  | [] => none
  | c :: r =>
    if pySpace c then
      (if r.takeWhile (fun d => d ≠ ':') = [] then none
       else some (r.takeWhile (fun d => d ≠ ':')))
    else none

/-- Amended year: a maximal run of two to four digits followed by the
amended tail. -/
def amendDigitsSubject (l : List Char) : Option (List Char) :=
  if 2 ≤ (l.takeWhile Char.isDigit).length ∧ (l.takeWhile Char.isDigit).length ≤ 4 then
    amendSubjectTail (l.drop (l.takeWhile Char.isDigit).length)
  else none

/-- Amended pattern at one position. -/
def amendTryAt (l : List Char) : Option (List Char) :=
  match matchTerm l with
  | none => none
  | some r =>
    match r with
    | [] => none
    | c :: r2 => if pySpace c then amendDigitsSubject r2 else none

/-- Amended search: first position at which the amended pattern matches. -/
def amendSearch : List Char → Option (List Char)
  | [] => none
  | c :: r =>
    match amendTryAt (c :: r) with
    | some g => some g
    | none => amendSearch r

/-- Amended derivation of the course code. -/
def derive_course_code_amended (course_name : List Char) : List Char :=
  match amendSearch course_name with
  | some subj =>
    let code := replaceChar '/' '_' (replaceChar ' ' '_' (stripWs subj))
    if code = [] then
      (let fb := fallbackCode course_name
       if fb = [] then literalFallback else fb)
    else code
  | none =>
    let fb := fallbackCode course_name
    if fb = [] then literalFallback else fb

lemma wsSubject_eq_amend (l : List Char) : wsSubject l = amendSubjectTail l := by
  cases l <;> rfl

lemma digit_not_space (c : Char) (h : c.isDigit = true) : pySpace c = false := by
  revert h
  unfold Char.isDigit pySpace
  intro h
  simp only [Bool.and_eq_true, decide_eq_true_eq] at h
  obtain ⟨h1, h2⟩ := h
  simp only [Bool.or_eq_false_iff, beq_eq_false_iff_ne, ne_eq]
  refine ⟨⟨⟨⟨⟨?_, ?_⟩, ?_⟩, ?_⟩, ?_⟩, ?_⟩ <;> rintro rfl <;> simp_all

lemma wsSubject_drop_digit (l : List Char) (k : Nat)
    (h : k < (l.takeWhile Char.isDigit).length) : wsSubject (l.drop k) = none := by
  induction l generalizing k with
  | nil => simp [List.takeWhile] at h
  | cons c r ih =>
    by_cases hc : c.isDigit
    · cases k with
      | zero =>
        have hcs : pySpace c = false := digit_not_space c hc
        simp [wsSubject, hcs]
      | succ k2 =>
        simp only [List.takeWhile_cons, hc, if_true, List.length_cons,
          Nat.succ_lt_succ_iff] at h
        simpa using ih k2 h
    · simp [List.takeWhile_cons, hc] at h

lemma digitsSubject_eq_amend (l : List Char) :
    digitsSubject l = amendDigitsSubject l := by
  unfold digitsSubject digitsTry amendDigitsSubject
  rw [← wsSubject_eq_amend]
  rcases Nat.lt_or_ge (l.takeWhile Char.isDigit).length 2 with h2 | h2
  · have g4 : ¬ (2 ≤ 4 ∧ 4 ≤ (l.takeWhile Char.isDigit).length) := by omega
    have g3 : ¬ (2 ≤ 3 ∧ 3 ≤ (l.takeWhile Char.isDigit).length) := by omega
    have g2 : ¬ (2 ≤ 2 ∧ 2 ≤ (l.takeWhile Char.isDigit).length) := by omega
    have gn : ¬ (2 ≤ (l.takeWhile Char.isDigit).length ∧
        (l.takeWhile Char.isDigit).length ≤ 4) := by omega
    simp only [if_neg g4, if_neg g3, if_neg g2, if_neg gn]
  · rcases Nat.lt_or_ge 4 (l.takeWhile Char.isDigit).length with h5 | h5
    · have g4 : 2 ≤ 4 ∧ 4 ≤ (l.takeWhile Char.isDigit).length := by omega
      have g3 : 2 ≤ 3 ∧ 3 ≤ (l.takeWhile Char.isDigit).length := by omega
      have g2 : 2 ≤ 2 ∧ 2 ≤ (l.takeWhile Char.isDigit).length := by omega
      have gn : ¬ (2 ≤ (l.takeWhile Char.isDigit).length ∧
          (l.takeWhile Char.isDigit).length ≤ 4) := by omega
      simp only [if_pos g4, if_pos g3, if_pos g2, if_neg gn,
        wsSubject_drop_digit l 4 (by omega), wsSubject_drop_digit l 3 (by omega),
        wsSubject_drop_digit l 2 (by omega)]
    · have gn : 2 ≤ (l.takeWhile Char.isDigit).length ∧
          (l.takeWhile Char.isDigit).length ≤ 4 := by omega
      rw [if_pos gn]
      have hcase : (l.takeWhile Char.isDigit).length = 2 ∨
          (l.takeWhile Char.isDigit).length = 3 ∨
          (l.takeWhile Char.isDigit).length = 4 := by omega
      rcases hcase with h | h | h <;> rw [h]
      · simp only [show ¬ (2 ≤ 4 ∧ 4 ≤ 2) by omega, if_neg, if_false,
          show ¬ (2 ≤ 3 ∧ 3 ≤ 2) by omega, show (2:Nat) ≤ 2 ∧ 2 ≤ 2 by omega, if_true]
        simp
      · simp only [show ¬ (2 ≤ 4 ∧ 4 ≤ 3) by omega, if_neg, if_false,
          show (2:Nat) ≤ 3 ∧ 3 ≤ 3 by omega, if_true, show (2:Nat) ≤ 2 ∧ 2 ≤ 3 by omega,
          wsSubject_drop_digit l 2 (by omega)]
        cases wsSubject (l.drop 3) <;> simp
      · simp only [show (2:Nat) ≤ 4 ∧ 4 ≤ 4 by omega, if_true,
          show (2:Nat) ≤ 3 ∧ 3 ≤ 4 by omega, show (2:Nat) ≤ 2 ∧ 2 ≤ 4 by omega,
          wsSubject_drop_digit l 3 (by omega), wsSubject_drop_digit l 2 (by omega)]
        cases wsSubject (l.drop 4) <;> simp

lemma tryAt_eq_amend (l : List Char) : tryAt l = amendTryAt l := by
  unfold tryAt amendTryAt
  cases matchTerm l with
  | none => rfl
  | some r =>
    cases r with
    | nil => rfl
    | cons c r2 => by_cases hc : pySpace c <;> simp [hc, digitsSubject_eq_amend]

lemma reSearch_eq_amend (l : List Char) : reSearchSubject l = amendSearch l := by
  induction l with
  | nil => rfl
  | cons c r ih =>
    unfold reSearchSubject amendSearch
    rw [tryAt_eq_amend]
    cases amendTryAt (c :: r) with
    | none => simpa using ih
    | some g => rfl

/-- Helper equality: the source derivation agrees everywhere with the
amended specification. -/
lemma derive_eq_amend (title : List Char) :
    derive_course_code title = derive_course_code_amended title := by
  unfold derive_course_code derive_course_code_amended
  rw [reSearch_eq_amend]
  cases amendSearch title <;> rfl

/-- Concrete title on which the claimed derivation differs from the code:
there is no colon, so the claimed pattern does not match, while the source
regex does. -/
def c1CexTitle : List Char := "Spring 2024 Algorithms".data

/-- C1, counterexample: the claim as stated requires a colon after the
subject segment; the source regex does not, so on a colon-free title of the
term-year-subject shape the code returns the subject while the claimed
algorithm falls back to the collapsed title. -/
theorem c1_counterexample :
    derive_course_code c1CexTitle = "Algorithms".data ∧
    derive_course_code_claim c1CexTitle = "Spring_2024_Algorithms".data ∧
    derive_course_code c1CexTitle ≠ derive_course_code_claim c1CexTitle := by
  refine ⟨by decide, by decide, by decide⟩

/-- C1 (amended): the derived course code follows the two-tier algorithm in
which the pattern is term, one whitespace, a two-to-four digit year, one
whitespace, and a subject segment that is the maximal nonempty run of
non-colon characters (no trailing colon required); the matched subject is
trimmed of surrounding whitespace, spaces and slashes become underscores,
and an empty result falls back to the collapsed title or the literal
fallback code.  The three cited examples evaluate as the claim states. -/
theorem c1_amended :
    (∀ title, derive_course_code title = derive_course_code_amended title) ∧
    derive_course_code ("Spring 2024 Data Structures: Section 3".data) =
      "Data_Structures".data ∧
    derive_course_code ("Capstone Project!!".data) = "Capstone_Project".data ∧
    derive_course_code ("!!!".data) = literalFallback := by
  refine ⟨derive_eq_amend, by decide, by decide, by decide⟩

/-
Claim C9: filename safety of the derived course code.
-/

/-- Path separator characters: the forward slash of POSIX paths and the
backslash separator of Windows paths. -/
def isPathSep (c : Char) : Bool := c == '/' || c == '\\'

lemma mem_collapse (c : Char) (l : List Char) (b : Bool)
    (h : c ∈ collapseNonAlnumAux l b) : c.isAlphanum = true ∨ c = '_' := by
  induction l generalizing b with
  | nil => simp [collapseNonAlnumAux] at h
  | cons d r ih =>
    by_cases hd : d.isAlphanum
    · rw [collapseNonAlnumAux, if_pos hd] at h
      rcases List.mem_cons.mp h with rfl | h2
      · exact Or.inl hd
      · exact ih false h2
    · rw [collapseNonAlnumAux, if_neg hd] at h
      cases b with
      | true => exact ih true (by simpa using h)
      | false =>
        simp only [Bool.false_eq_true, if_false, List.mem_cons] at h
        rcases h with rfl | h2
        · exact Or.inr rfl
        · exact ih true h2

lemma mem_stripChar (c a : Char) (l : List Char) (h : c ∈ stripChar a l) : c ∈ l := by
  unfold stripChar at h
  rw [List.mem_reverse] at h
  have h2 := (List.dropWhile_sublist _).mem h
  rw [List.mem_reverse] at h2
  exact (List.dropWhile_sublist _).mem h2

lemma mem_fallbackCode (c : Char) (l : List Char) (h : c ∈ fallbackCode l) :
    c.isAlphanum = true ∨ c = '_' := by
  unfold fallbackCode at h
  exact mem_collapse c l false (mem_stripChar c '_' _ h)

lemma not_mem_replaceChar (a b : Char) (hab : b ≠ a) (l : List Char) :
    a ∉ replaceChar a b l := by
  induction l with
  | nil => simp [replaceChar]
  | cons c r ih =>
    unfold replaceChar
    simp only [List.mem_cons, not_or]
    refine ⟨?_, ih⟩
    split
    · exact fun hh => hab hh.symm
    · next hne => exact fun hh => hne hh.symm

lemma slash_not_mem_fallback_branch (title : List Char) :
    '/' ∉ (if fallbackCode title = [] then literalFallback else fallbackCode title) := by
  split
  · decide
  · intro hmem
    rcases mem_fallbackCode '/' title hmem with h | h
    · simp at h
    · simp at h

/-- Concrete title whose matched subject segment contains a backslash,
which survives into the derived code. -/
def c9CexTitle : List Char := "Spring 2024 A\\B: x".data

/-- C9, counterexample: the code only replaces forward slashes in the
matched subject segment, so a backslash in the title survives into the
derived course code, which therefore contains a path separator
character. -/
theorem c9_counterexample :
    derive_course_code c9CexTitle = ('A' :: '\\' :: 'B' :: []) ∧
    (derive_course_code c9CexTitle).any isPathSep = true := by
  refine ⟨by decide, by decide⟩

/-- C9 (amended): for every course title the derived course code is
non-empty and contains no forward slash, so it never introduces a POSIX
path separator; backslashes from a matched subject segment may survive. -/
theorem c9_amended (title : List Char) :
    derive_course_code title ≠ [] ∧ ∀ c ∈ derive_course_code title, c ≠ '/' := by
  constructor
  · cases h : reSearchSubject title with
    | none =>
      simp only [derive_course_code, h]
      split
      · simp [literalFallback]
      · assumption
    | some g =>
      simp only [derive_course_code, h]
      split
      · split
        · simp [literalFallback]
        · assumption
      · assumption
  · intro c hc hceq
    subst hceq
    cases h : reSearchSubject title with
    | none =>
      simp only [derive_course_code, h] at hc
      exact slash_not_mem_fallback_branch title hc
    | some g =>
      simp only [derive_course_code, h] at hc
      revert hc
      split
      · exact fun hc => slash_not_mem_fallback_branch title hc
      · exact fun hc => not_mem_replaceChar '/' '_' (by decide) _ hc

/-- C9 witness: the amended statement evaluated at a concrete title. -/
theorem c9_witness :
    derive_course_code ("Fall 23 Intro/Adv Prog: S1".data) ≠ [] ∧
    ∀ c ∈ derive_course_code ("Fall 23 Intro/Adv Prog: S1".data), c ≠ '/' :=
  c9_amended ("Fall 23 Intro/Adv Prog: S1".data)

/-
Session cache from backend/app.py (class SessionState).  The Python dict
from token to (expires_at, (session, session_key)) is modelled as an
association list with unique keys: since dict keys are unique, deleting a
key equals filtering it out, and assignment replaces the existing binding
in place.  Tokens and time stamps are natural numbers; the stored payload
(the requests.Session handle together with the session key) is an opaque
type parameter.  The lock only serialises the operations and has no
sequential content.
-/

def SESSION_TTL_SECONDS : Nat := 30 * 60

/-- Lookup of a dict key: the value of the first binding of the token. -/
def lookupKey {σ : Type} : List (Nat × Nat × σ) → Nat → Option (Nat × σ)
  | [], _ => none
  | (k, v) :: r, t => if k = t then some v else lookupKey r t

/-- Dict assignment: replace the binding in place, or append a fresh one. -/
def setKey {σ : Type} : List (Nat × Nat × σ) → Nat → Nat × σ → List (Nat × Nat × σ)
  | [], t, v => [(t, v)]
  | (k, w) :: r, t, v => if k = t then (t, v) :: r else (k, w) :: setKey r t v

/-- Dict deletion: with unique keys, del and pop amount to filtering the
token out. -/
def delKey {σ : Type} (s : List (Nat × Nat × σ)) (t : Nat) : List (Nat × Nat × σ) :=
  s.filter (fun e => e.1 != t)

/-- The store of SessionState. -/
def CacheStore (σ : Type) : Type := List (Nat × Nat × σ)

inductive SessErr where
  | invalidToken
  | expired
deriving DecidableEq

/-- SessionState.create: store the payload under the given token with
expiry now + TTL.  The uuid4 token is an argument of the model; its
freshness is a hypothesis where a claim needs it. -/
def cacheCreate {σ : Type} (st : CacheStore σ) (token now : Nat) (sess : σ) :
    CacheStore σ :=
  setKey st token (now + SESSION_TTL_SECONDS, sess)

/-- SessionState.get: an absent token raises the invalid-token error; an
entry whose expiry lies strictly in the past is deleted and raises the
expired error; otherwise the stored payload is returned.  The result is
paired with the updated store. -/
def cacheGet {σ : Type} (st : CacheStore σ) (now token : Nat) :
    Except SessErr σ × CacheStore σ :=
  match lookupKey st token with
  | none => (Except.error SessErr.invalidToken, st)
  | some (exp, sess) =>
    if now > exp then (Except.error SessErr.expired, delKey st token)
    else (Except.ok sess, st)

/-- SessionState.touch: if the token is present, rebind it to the kept
payload with expiry now + TTL; otherwise do nothing. -/
def cacheTouch {σ : Type} (st : CacheStore σ) (now token : Nat) : CacheStore σ :=
  match lookupKey st token with
  | none => st
  | some (_, sess) => setKey st token (now + SESSION_TTL_SECONDS, sess)

/-- SessionState.remove: unconditional eviction via pop with default. -/
def cacheRemove {σ : Type} (st : CacheStore σ) (token : Nat) : CacheStore σ :=
  delKey st token

/-- SessionState.cleanup: evict every entry whose expiry lies strictly
before now. -/
def cacheCleanup {σ : Type} (st : CacheStore σ) (now : Nat) : CacheStore σ :=
  st.filter (fun e => !(decide (e.2.1 < now)))

/-- One cache operation tagged with the time at which it runs. -/
inductive CacheOp (σ : Type) where
  | createOp (token now : Nat) (sess : σ)
  | getOp (now token : Nat)
  | touchOp (now token : Nat)
  | removeOp (token : Nat)
  | cleanupOp (now : Nat)

/-- Effect of one operation on the store. -/
def applyOp {σ : Type} (st : CacheStore σ) : CacheOp σ → CacheStore σ
  | CacheOp.createOp t now s => cacheCreate st t now s
  | CacheOp.getOp now t => (cacheGet st now t).2
  | CacheOp.touchOp now t => cacheTouch st now t
  | CacheOp.removeOp t => cacheRemove st t
  | CacheOp.cleanupOp now => cacheCleanup st now

/-- Run a sequence of cache operations. -/
def runOps {σ : Type} (st : CacheStore σ) (ops : List (CacheOp σ)) : CacheStore σ :=
  ops.foldl applyOp st

/-- Does this operation create the given token? -/
def createsToken {σ : Type} (t : Nat) : CacheOp σ → Bool
  | CacheOp.createOp t2 _ _ => t2 == t
  | _ => false

/-- Token t has left the active state in the store at the given time: it is
absent (evicted or never created), or its expiry already passed. -/
def leftActive {σ : Type} (st : CacheStore σ) (t now : Nat) : Bool :=
  match lookupKey st t with
  | none => true
  | some (exp, _) => decide (now > exp)

/-- Claim C3 as stated: once a token has left the active state, no later
sequence of operations that does not recreate the very same token makes a
get on it succeed again. -/
def noResurrectionClaim : Prop :=
  ∀ (st : CacheStore Nat) (t now : Nat), leftActive st t now = true →
    ∀ ops : List (CacheOp Nat), (∀ op ∈ ops, createsToken t op = false) →
      ∀ now2, now ≤ now2 →
        ∀ sess, (cacheGet (runOps st ops) now2 t).1 ≠ Except.ok sess

lemma lookup_setKey_self {σ : Type} (s : List (Nat × Nat × σ)) (t : Nat) (v : Nat × σ) :
    lookupKey (setKey s t v) t = some v := by
  induction s with
  | nil => simp [setKey, lookupKey]
  | cons e r ih =>
    obtain ⟨k, w⟩ := e
    unfold setKey
    by_cases hk : k = t
    · simp [hk, lookupKey]
    · simp [hk, lookupKey, ih]

lemma lookup_setKey_ne {σ : Type} (s : List (Nat × Nat × σ)) (k t : Nat) (v : Nat × σ)
    (h : k ≠ t) : lookupKey (setKey s k v) t = lookupKey s t := by
  induction s with
  | nil => simp [setKey, lookupKey, h]
  | cons e r ih =>
    obtain ⟨k2, w⟩ := e
    unfold setKey
    by_cases hk : k2 = k
    · subst hk
      simp [lookupKey, h]
    · simp only [if_neg hk]
      unfold lookupKey
      by_cases hk2 : k2 = t <;> simp [hk2, ih]

lemma lookup_filter_none {σ : Type} (p : Nat × Nat × σ → Bool)
    (s : List (Nat × Nat × σ)) (t : Nat) (h : lookupKey s t = none) :
    lookupKey (s.filter p) t = none := by
  induction s with
  | nil => simp [lookupKey]
  | cons e r ih =>
    obtain ⟨k, w⟩ := e
    unfold lookupKey at h
    by_cases hk : k = t
    · simp [hk] at h
    · simp only [if_neg hk] at h
      rw [List.filter_cons]
      split
    -- kept
      · unfold lookupKey
        simp [hk, ih h]
      · exact ih h

lemma lookup_delKey_self {σ : Type} (s : List (Nat × Nat × σ)) (t : Nat) :
    lookupKey (delKey s t) t = none := by
  induction s with
  | nil => simp [delKey, lookupKey]
  | cons e r ih =>
    obtain ⟨k, w⟩ := e
    unfold delKey
    rw [List.filter_cons]
    by_cases hk : k = t
    · simp only [hk]
      simp only [bne_self_eq_false]
      simpa [delKey] using ih
    · have : ((k, w).1 != t) = true := by simpa using hk
      simp only [this, if_pos]
      unfold lookupKey
      simpa [hk, delKey] using ih

lemma absent_after_op {σ : Type} (st : CacheStore σ) (t : Nat) (op : CacheOp σ)
    (habs : lookupKey st t = none) (hop : createsToken t op = false) :
    lookupKey (applyOp st op) t = none := by
  cases op with
  | createOp t2 now s =>
    have ht2 : t2 ≠ t := by simpa [createsToken] using hop
    show lookupKey (cacheCreate st t2 now s) t = none
    unfold cacheCreate
    rw [lookup_setKey_ne st t2 t _ ht2]
    exact habs
  | getOp now t2 =>
    show lookupKey (cacheGet st now t2).2 t = none
    unfold cacheGet
    split
    · exact habs
    · split
      · exact lookup_filter_none _ st t habs
      · exact habs
  | touchOp now t2 =>
    show lookupKey (cacheTouch st now t2) t = none
    unfold cacheTouch
    cases h2 : lookupKey st t2 with
    | none => exact habs
    | some v =>
      obtain ⟨exp, sess⟩ := v
      have ht2 : t2 ≠ t := by
        intro hh
        rw [hh, habs] at h2
        exact Option.noConfusion h2
      rw [lookup_setKey_ne st t2 t _ ht2]
      exact habs
  | removeOp t2 =>
    show lookupKey (cacheRemove st t2) t = none
    unfold cacheRemove delKey
    exact lookup_filter_none _ st t habs
  | cleanupOp now =>
    show lookupKey (cacheCleanup st now) t = none
    unfold cacheCleanup
    exact lookup_filter_none _ st t habs

lemma absent_after_runOps {σ : Type} (st : CacheStore σ) (t : Nat)
    (ops : List (CacheOp σ)) (habs : lookupKey st t = none)
    (hops : ∀ op ∈ ops, createsToken t op = false) :
    lookupKey (runOps st ops) t = none := by
  induction ops generalizing st with
  | nil => exact habs
  | cons op rest ih =>
    have h1 : createsToken t op = false := hops op (List.mem_cons_self op rest)
    have h2 : ∀ o ∈ rest, createsToken t o = false :=
      fun o ho => hops o (List.mem_cons_of_mem op ho)
    exact ih (applyOp st op) (absent_after_op st t op habs h1) h2

/-- C3, counterexample: a token whose expiry has passed but which has not
yet been evicted is still present in the dict, so touch rebinds it with a
fresh expiry and a later get succeeds: the claimed no-resurrection property
fails for the expired-but-unswept state. -/
theorem c3_counterexample : ¬ noResurrectionClaim := by
  intro hcl
  have h := hcl [(7, 1800, 42)] 7 2000 (by decide)
    [CacheOp.touchOp 2000 7] (by decide) 2500 (by omega) 42
  exact h rfl

/-- C3 (amended): once a token is actually evicted from the cache (by
remove, by cleanup, or by get observing expiry) it is absent from the
store, and as long as no later create reuses the very token, every later
operation leaves it absent and every later get on it fails with the
invalid-token error.  A token whose expiry has merely passed while it is
still stored can however be revived by touch. -/
theorem c3_amended (st : CacheStore Nat) (t : Nat) (habs : lookupKey st t = none)
    (ops : List (CacheOp Nat)) (hops : ∀ op ∈ ops, createsToken t op = false) :
    lookupKey (runOps st ops) t = none ∧
    ∀ now2, (cacheGet (runOps st ops) now2 t).1 = Except.error SessErr.invalidToken := by
  have habs2 := absent_after_runOps st t ops habs hops
  refine ⟨habs2, fun now2 => ?_⟩
  unfold cacheGet
  rw [habs2]

/-- C3 witness: the amended statement on a concrete store and operation
sequence that touches, sweeps, removes and creates other tokens. -/
theorem c3_witness :
    lookupKey (runOps [(3, 10, 5)]
      [CacheOp.touchOp 100 7, CacheOp.cleanupOp 50, CacheOp.removeOp 3,
       CacheOp.createOp 5 0 9] : CacheStore Nat) 7 = none ∧
    ∀ now2, (cacheGet (runOps [(3, 10, 5)]
      [CacheOp.touchOp 100 7, CacheOp.cleanupOp 50, CacheOp.removeOp 3,
       CacheOp.createOp 5 0 9] : CacheStore Nat) now2 7).1 =
        Except.error SessErr.invalidToken :=
  c3_amended [(3, 10, 5)] 7 (by decide)
    [CacheOp.touchOp 100 7, CacheOp.cleanupOp 50, CacheOp.removeOp 3,
     CacheOp.createOp 5 0 9] (by decide)

/-- C4: get fails with the invalid-token error on an absent token; on a
present token whose expiry lies strictly in the past it fails with the
expired error and deletes the entry, so an immediately following get on the
same token fails as well. -/
theorem c4_get (st : CacheStore Nat) (t now : Nat) :
    (lookupKey st t = none →
      cacheGet st now t = (Except.error SessErr.invalidToken, st)) ∧
    (∀ exp sess, lookupKey st t = some (exp, sess) → now > exp →
      (cacheGet st now t).1 = Except.error SessErr.expired ∧
      lookupKey (cacheGet st now t).2 t = none ∧
      ∀ now2, (cacheGet (cacheGet st now t).2 now2 t).1 =
        Except.error SessErr.invalidToken) := by
  constructor
  · intro habs
    unfold cacheGet
    rw [habs]
  · intro exp sess hsome hexp
    have hget : cacheGet st now t = (Except.error SessErr.expired, delKey st t) := by
      unfold cacheGet
      rw [hsome]
      simp [hexp]
    rw [hget]
    have hnone : lookupKey (delKey st t) t = none := lookup_delKey_self st t
    refine ⟨rfl, hnone, fun now2 => ?_⟩
    unfold cacheGet
    rw [hnone]

/-- C4 witness: both branches evaluated on concrete stores. -/
theorem c4_witness :
    cacheGet ([] : CacheStore Nat) 5 7 = (Except.error SessErr.invalidToken, []) ∧
    ((cacheGet [(7, 100, 42)] 200 7).1 = Except.error SessErr.expired ∧
     lookupKey (cacheGet [(7, 100, 42)] 200 7).2 7 = none ∧
     ∀ now2, (cacheGet (cacheGet ([(7, 100, 42)] : CacheStore Nat) 200 7).2 now2 7).1 =
       Except.error SessErr.invalidToken) :=
  ⟨(c4_get [] 7 5).1 rfl, (c4_get [(7, 100, 42)] 7 200).2 100 42 rfl (by omega)⟩

/-- C8: touch on a present token rebinds it with expiry now + TTL, keeping
the payload, so every get at a time not beyond now + TTL succeeds, in
particular past the original expiry; touch on an absent token returns the
store unchanged and raises nothing. -/
theorem c8_touch (st : CacheStore Nat) (t now : Nat) :
    (∀ exp sess, lookupKey st t = some (exp, sess) →
      lookupKey (cacheTouch st now t) t = some (now + SESSION_TTL_SECONDS, sess) ∧
      ∀ now2, now2 ≤ now + SESSION_TTL_SECONDS →
        (cacheGet (cacheTouch st now t) now2 t).1 = Except.ok sess) ∧
    (lookupKey st t = none → cacheTouch st now t = st) := by
  constructor
  · intro exp sess hsome
    have htch : cacheTouch st now t = setKey st t (now + SESSION_TTL_SECONDS, sess) := by
      unfold cacheTouch
      rw [hsome]
    rw [htch]
    have hlk := lookup_setKey_self st t (now + SESSION_TTL_SECONDS, sess)
    refine ⟨hlk, fun now2 hle => ?_⟩
    unfold cacheGet
    rw [hlk]
    have : ¬ now2 > now + SESSION_TTL_SECONDS := by omega
    simp [this]
  · intro habs
    unfold cacheTouch
    rw [habs]

/-- C8 witness: a token stored with expiry 100 and touched at time 90 is
still retrievable at time 1000, past the original expiry. -/
theorem c8_witness :
    lookupKey (cacheTouch ([(7, 100, 42)] : CacheStore Nat) 90 7) 7 =
      some (90 + SESSION_TTL_SECONDS, 42) ∧
    (cacheGet (cacheTouch ([(7, 100, 42)] : CacheStore Nat) 90 7) 1000 7).1 =
      Except.ok 42 := by
  have h := (c8_touch [(7, 100, 42)] 7 90).1 100 42 rfl
  exact ⟨h.1, h.2 1000 (by decide)⟩

/-- C10: touch modifies at most the expiry of the touched binding: every
other token is bound exactly as before, a present token keeps its payload
with the new expiry, and an absent token leaves the store literally
unchanged. -/
theorem c10_touch_frame (st : CacheStore Nat) (t now : Nat) :
    (∀ t2, t2 ≠ t → lookupKey (cacheTouch st now t) t2 = lookupKey st t2) ∧
    (∀ exp sess, lookupKey st t = some (exp, sess) →
      lookupKey (cacheTouch st now t) t = some (now + SESSION_TTL_SECONDS, sess)) ∧
    (lookupKey st t = none → cacheTouch st now t = st) := by
  refine ⟨fun t2 hne => ?_, fun exp sess hsome => ?_, fun habs => ?_⟩
  · unfold cacheTouch
    cases h : lookupKey st t with
    | none => rfl
    | some v =>
      obtain ⟨exp, sess⟩ := v
      exact lookup_setKey_ne st t t2 _ (fun hh => hne hh.symm)
  · unfold cacheTouch
    rw [hsome]
    exact lookup_setKey_self st t _
  · unfold cacheTouch
    rw [habs]

/-- C10 witness: the frame property on a concrete two-entry store. -/
theorem c10_witness :
    lookupKey (cacheTouch ([(7, 100, 42), (3, 50, 9)] : CacheStore Nat) 90 7) 3 =
      lookupKey ([(7, 100, 42), (3, 50, 9)] : CacheStore Nat) 3 ∧
    lookupKey (cacheTouch ([(7, 100, 42), (3, 50, 9)] : CacheStore Nat) 90 7) 7 =
      some (90 + SESSION_TTL_SECONDS, 42) :=
  ⟨(c10_touch_frame [(7, 100, 42), (3, 50, 9)] 7 90).1 3 (by omega),
   (c10_touch_frame [(7, 100, 42), (3, 50, 9)] 7 90).2.1 100 42 rfl⟩

/-
Authenticator: login from elms_extractor.py.
-/

/-- Python substring test: the needle occurs literally at some position. -/
def hasSub (needle : List Char) : List Char → Bool
  | [] => needle.isEmpty
  | c :: r => (dropLit needle (c :: r)).isSome || hasSub needle r

/-- Parsed HTML page as the extractors see it: the raw text together with
the value attributes of the two uniquely named hidden inputs that the soup
queries locate (none when the input element is missing). -/
structure Html where
  text : List Char
  logintokenValue : Option (List Char)
  sesskeyValue : Option (List Char)

/-- Embedding of extract_csrf_token: the value of the hidden input named
logintoken, if present. -/
def extract_csrf_token (h : Html) : Option (List Char) := h.logintokenValue

/-- Embedding of extract_session_key: the value of the hidden input named
sesskey, if present. -/
def extract_session_key (h : Html) : Option (List Char) := h.sesskeyValue

/-- The form data POSTed to the login endpoint. -/
structure LoginPayload where
  username : List Char
  password : List Char
  logintoken : List Char

def msgTokenNotFound : List Char := "Unable to locate CSRF token on login page.".data
def msgLoginFailed : List Char := "Login failed. Please verify your credentials.".data
def msgSesskeyMissing : List Char := "Authenticated but failed to capture session key.".data
def strDashboard : List Char := "Dashboard".data

/-- Python falsy test on an optional string: None and the empty string are
both falsy. -/
def optFalsy : Option (List Char) → Bool
  | none => true
  | some s => s.isEmpty

/-- The single exception class raised by login, carrying its message. -/
structure ElmsLoginErrorMsg where
  msg : List Char
deriving DecidableEq

/-- Embedding of login: the GET of the login page is the loginPage
argument and the transport is a function from the POST form data to the
response page.  On success the captured session key is returned (the
cookie-carrying transport handle itself lives inside the post function and
needs no separate representation). -/
def login (loginPage : Html) (post : LoginPayload → Html)
    (username password : List Char) : Except ElmsLoginErrorMsg (List Char) :=
  let csrf := extract_csrf_token loginPage
  if optFalsy csrf = true then Except.error ⟨msgTokenNotFound⟩
  else
    let resp := post ⟨username, password, csrf.getD []⟩
    if hasSub strDashboard resp.text = false then Except.error ⟨msgLoginFailed⟩
    else
      let sk := extract_session_key resp
      if optFalsy sk = true then Except.error ⟨msgSesskeyMissing⟩
      else Except.ok (sk.getD [])

/-- C6: login fails at exactly the three points of the claim, the three
failure outcomes carry pairwise distinct messages and are therefore
distinguishable, every error is one of the three, and an error carries no
session. -/
theorem c6_login (loginPage : Html) (post : LoginPayload → Html)
    (username password : List Char) :
    (optFalsy (extract_csrf_token loginPage) = true →
      login loginPage post username password = Except.error ⟨msgTokenNotFound⟩) ∧
    (optFalsy (extract_csrf_token loginPage) = false →
      hasSub strDashboard
        (post ⟨username, password, (extract_csrf_token loginPage).getD []⟩).text = false →
      login loginPage post username password = Except.error ⟨msgLoginFailed⟩) ∧
    (optFalsy (extract_csrf_token loginPage) = false →
      hasSub strDashboard
        (post ⟨username, password, (extract_csrf_token loginPage).getD []⟩).text = true →
      optFalsy (extract_session_key
        (post ⟨username, password, (extract_csrf_token loginPage).getD []⟩)) = true →
      login loginPage post username password = Except.error ⟨msgSesskeyMissing⟩) ∧
    (optFalsy (extract_csrf_token loginPage) = false →
      hasSub strDashboard
        (post ⟨username, password, (extract_csrf_token loginPage).getD []⟩).text = true →
      optFalsy (extract_session_key
        (post ⟨username, password, (extract_csrf_token loginPage).getD []⟩)) = false →
      login loginPage post username password = Except.ok
        ((extract_session_key
          (post ⟨username, password, (extract_csrf_token loginPage).getD []⟩)).getD [])) ∧
    (msgTokenNotFound ≠ msgLoginFailed ∧ msgTokenNotFound ≠ msgSesskeyMissing ∧
      msgLoginFailed ≠ msgSesskeyMissing) ∧
    (∀ e, login loginPage post username password = Except.error e →
      e.msg = msgTokenNotFound ∨ e.msg = msgLoginFailed ∨ e.msg = msgSesskeyMissing) := by
  refine ⟨?_, ?_, ?_, ?_, ⟨by decide, by decide, by decide⟩, ?_⟩
  · intro h1
    simp only [login, h1, if_pos]
  · intro h1 h2
    simp only [login, h1, h2]
    simp
  · intro h1 h2 h3
    simp only [login, h1, h2, h3]
    simp
  · intro h1 h2 h3
    simp only [login, h1, h2, h3]
    simp
  · intro e
    simp only [login]
    split
    · intro he
      have h := Except.error.inj he
      exact Or.inl (by rw [← h])
    · split
      · intro he
        have h := Except.error.inj he
        exact Or.inr (Or.inl (by rw [← h]))
      · split
        · intro he
          have h := Except.error.inj he
          exact Or.inr (Or.inr (by rw [← h]))
        · intro he
          exact absurd he (by simp)

/-- Sample pages for the C6 witness. -/
def pageNoToken : Html := ⟨[], none, none⟩
def pageWithToken : Html := ⟨[], some ("tok".data), none⟩
def pageAuthed : Html := ⟨"Welcome Dashboard page".data, none, some ("sess42".data)⟩

/-- C6 witness: a missing token page fails with the token message, and a
complete handshake returns the captured session key. -/
theorem c6_witness :
    login pageNoToken (fun _ => pageAuthed) ("u".data) ("p".data) =
      Except.error ⟨msgTokenNotFound⟩ ∧
    login pageWithToken (fun _ => pageAuthed) ("u".data) ("p".data) =
      Except.ok ("sess42".data) := by
  constructor
  · exact (c6_login pageNoToken (fun _ => pageAuthed) ("u".data) ("p".data)).1 (by decide)
  · exact (c6_login pageWithToken (fun _ => pageAuthed) ("u".data)
      ("p".data)).2.2.2.1 (by decide) (by decide) (by decide)

/-
Course Directory: get_all_course_ids and get_courses_with_names from
elms_extractor.py.  The response text of the enrollment-listing POST is
modelled by the outcome of json.loads: none when decoding raises, some of
the decoded document otherwise.
-/

/-- Decoded JSON documents. -/
inductive Json where
  | null
  | boolVal (b : Bool)
  | numVal (n : Int)
  | strVal (s : List Char)
  | arrVal (elems : List Json)
  | objVal (fields : List (List Char × Json))

/-- Python dict lookup on a decoded object; json.loads keeps at most one
binding per key. -/
def jfield : List (List Char × Json) → List Char → Option Json
  | [], _ => none
  | (k, v) :: r, key => if k = key then some v else jfield r key

/-- The DirectoryError taxonomy of the spec: in the source these are the
json.JSONDecodeError raised by json.loads and the IndexError, KeyError,
TypeError and AttributeError raised while navigating the envelope or a
course entry. -/
inductive DirErr where
  | decodeError
  | envelopeError
  | courseEntryError
deriving DecidableEq

def strData : List Char := "data".data
def strCourses : List Char := "courses".data
def strIdKey : List Char := "id".data
def strFullname : List Char := "fullname".data

/-- Iterating the located courses value in the comprehension: a decoded
array yields its elements; iterating an empty object or empty string
yields nothing; any other value raises a type error. -/
def coursesElems : Json → Except DirErr (List Json)
  | Json.arrVal xs => Except.ok xs
  | Json.objVal [] => Except.ok []
  | Json.strVal [] => Except.ok []
  | _ => Except.error DirErr.courseEntryError

/-- Navigation shared by both directory functions: element 0 of the
decoded array, its data field, and the courses key, with an empty-list
default exactly when only that last key is missing. -/
def locateCourses (parsed : Option Json) : Except DirErr (List Json) :=
  match parsed with
  | none => Except.error DirErr.decodeError
  | some doc =>
    match doc with
    | Json.arrVal (first :: _) =>
      match first with
      | Json.objVal fs =>
        match jfield fs strData with
        | some (Json.objVal dfs) =>
          match jfield dfs strCourses with
          | some v => coursesElems v
          | none => Except.ok []
        | some _ => Except.error DirErr.envelopeError
        | none => Except.error DirErr.envelopeError
      | _ => Except.error DirErr.envelopeError
    | _ => Except.error DirErr.envelopeError

/-- Subscripting one course entry with the id key. -/
def courseIdValue : Json → Except DirErr Json
  | Json.objVal fs =>
    match jfield fs strIdKey with
    | some v => Except.ok v
    | none => Except.error DirErr.courseEntryError
  | _ => Except.error DirErr.courseEntryError

/-- The list comprehension over the course entries. -/
def idsOf : List Json → Except DirErr (List Json)
  | [] => Except.ok []
  | c :: r =>
    match courseIdValue c with
    | Except.error e => Except.error e
    | Except.ok v =>
      match idsOf r with
      | Except.error e => Except.error e
      | Except.ok vs => Except.ok (v :: vs)

/-- Embedding of get_all_course_ids. -/
def get_all_course_ids (parsed : Option Json) : Except DirErr (List Json) :=
  match locateCourses parsed with
  | Except.error e => Except.error e
  | Except.ok cs => idsOf cs

/-- The part of the full name after the first colon, or the whole string
when no colon occurs (str.split with maxsplit 1, last element). -/
def afterFirstColon (s : List Char) : List Char :=
  if s.contains ':' then (s.dropWhile (fun c => c ≠ ':')).tail else s

/-- One entry of the dict comprehension: the stripped name part keyed to
the id value; a missing key or a non-string full name raises. -/
def courseNameId : Json → Except DirErr (List Char × Json)
  | Json.objVal fs =>
    match jfield fs strFullname, jfield fs strIdKey with
    | some (Json.strVal fn), some v =>
      Except.ok (stripWs (afterFirstColon fn), v)
    | _, _ => Except.error DirErr.courseEntryError
  | _ => Except.error DirErr.courseEntryError

/-- The dict comprehension over the course entries, as the pair list in
iteration order. -/
def namePairsOf : List Json → Except DirErr (List (List Char × Json))
  | [] => Except.ok []
  | c :: r =>
    match courseNameId c with
    | Except.error e => Except.error e
    | Except.ok p =>
      match namePairsOf r with
      | Except.error e => Except.error e
      | Except.ok ps => Except.ok (p :: ps)

/-- Dict insertion: a repeated key keeps its position but takes the later
value. -/
def setStrKey : List (List Char × Json) → List Char → Json → List (List Char × Json)
  | [], k, v => [(k, v)]
  | (k2, w) :: r, k, v => if k2 = k then (k, v) :: r else (k2, w) :: setStrKey r k v

/-- Python dict built from the comprehension pairs. -/
def pairsToDict (ps : List (List Char × Json)) : List (List Char × Json) :=
  ps.foldl (fun acc p => setStrKey acc p.1 p.2) []

/-- Embedding of get_courses_with_names. -/
def get_courses_with_names (parsed : Option Json) :
    Except DirErr (List (List Char × Json)) :=
  match locateCourses parsed with
  | Except.error e => Except.error e
  | Except.ok cs =>
    match namePairsOf cs with
    | Except.error e => Except.error e
    | Except.ok ps => Except.ok (pairsToDict ps)

/-- Whether the expected course array can actually be located in the
decoded document. -/
def coursesLocatable (parsed : Option Json) : Bool :=
  match parsed with
  | some (Json.arrVal (Json.objVal fs :: _)) =>
    match jfield fs strData with
    | some (Json.objVal dfs) =>
      match jfield dfs strCourses with
      | some (Json.arrVal _) => true
      | _ => false
    | _ => false
  | _ => false

/-- Claim C5 as stated: whenever the envelope does not parse or the course
array cannot be located, both directory operations fail with a
DirectoryError and never return silently. -/
def c5Claim : Prop :=
  ∀ parsed : Option Json, coursesLocatable parsed = false →
    (∃ e, get_all_course_ids parsed = Except.error e) ∧
    (∃ e, get_courses_with_names parsed = Except.error e)

/-- C5, counterexample: a decodable envelope whose data object merely
lacks the courses key hits the empty-list default of dict.get, so both
operations silently return an empty result instead of failing. -/
theorem c5_counterexample : ¬ c5Claim := by
  intro h
  obtain ⟨⟨e, he⟩, _⟩ :=
    h (some (Json.arrVal [Json.objVal [(strData, Json.objVal [])]])) rfl
  have hok : get_all_course_ids
      (some (Json.arrVal [Json.objVal [(strData, Json.objVal [])]])) =
      Except.ok [] := rfl
  rw [hok] at he
  exact Except.noConfusion he

/-- C5 (amended): a response that does not decode, or whose decoded
document has no first array element, whose first element is not an object,
whose data key is absent, or whose data value is not an object, makes both
directory operations fail with a DirectoryError; but a well-formed
envelope whose data object merely lacks the courses key silently yields an
empty course collection. -/
theorem c5_amended :
    (get_all_course_ids none = Except.error DirErr.decodeError ∧
     get_courses_with_names none = Except.error DirErr.decodeError) ∧
    (∀ doc, (∀ first rest, doc ≠ Json.arrVal (first :: rest)) →
      get_all_course_ids (some doc) = Except.error DirErr.envelopeError ∧
      get_courses_with_names (some doc) = Except.error DirErr.envelopeError) ∧
    (∀ v rest, (∀ fs, v ≠ Json.objVal fs) →
      get_all_course_ids (some (Json.arrVal (v :: rest))) =
        Except.error DirErr.envelopeError ∧
      get_courses_with_names (some (Json.arrVal (v :: rest))) =
        Except.error DirErr.envelopeError) ∧
    (∀ fs rest, jfield fs strData = none →
      get_all_course_ids (some (Json.arrVal (Json.objVal fs :: rest))) =
        Except.error DirErr.envelopeError ∧
      get_courses_with_names (some (Json.arrVal (Json.objVal fs :: rest))) =
        Except.error DirErr.envelopeError) ∧
    (∀ fs rest w, jfield fs strData = some w → (∀ dfs, w ≠ Json.objVal dfs) →
      get_all_course_ids (some (Json.arrVal (Json.objVal fs :: rest))) =
        Except.error DirErr.envelopeError ∧
      get_courses_with_names (some (Json.arrVal (Json.objVal fs :: rest))) =
        Except.error DirErr.envelopeError) ∧
    (∀ fs dfs rest, jfield fs strData = some (Json.objVal dfs) →
      jfield dfs strCourses = none →
      get_all_course_ids (some (Json.arrVal (Json.objVal fs :: rest))) =
        Except.ok [] ∧
      get_courses_with_names (some (Json.arrVal (Json.objVal fs :: rest))) =
        Except.ok []) := by
  refine ⟨⟨rfl, rfl⟩, ?_, ?_, ?_, ?_, ?_⟩
  · intro doc h
    cases doc with
    | null => exact ⟨rfl, rfl⟩
    | boolVal b => exact ⟨rfl, rfl⟩
    | numVal n => exact ⟨rfl, rfl⟩
    | strVal s => exact ⟨rfl, rfl⟩
    | objVal fs => exact ⟨rfl, rfl⟩
    | arrVal elems =>
      cases elems with
      | nil => exact ⟨rfl, rfl⟩
      | cons f r => exact absurd rfl (h f r)
  · intro v rest h
    cases v with
    | null => exact ⟨rfl, rfl⟩
    | boolVal b => exact ⟨rfl, rfl⟩
    | numVal n => exact ⟨rfl, rfl⟩
    | strVal s => exact ⟨rfl, rfl⟩
    | arrVal elems => exact ⟨rfl, rfl⟩
    | objVal fs => exact absurd rfl (h fs)
  · intro fs rest hnone
    constructor
    · simp only [get_all_course_ids, locateCourses, hnone]
    · simp only [get_courses_with_names, locateCourses, hnone]
  · intro fs rest w hsome hnotobj
    cases w with
    | objVal dfs => exact absurd rfl (hnotobj dfs)
    | null =>
      exact ⟨by simp only [get_all_course_ids, locateCourses, hsome],
             by simp only [get_courses_with_names, locateCourses, hsome]⟩
    | boolVal b =>
      exact ⟨by simp only [get_all_course_ids, locateCourses, hsome],
             by simp only [get_courses_with_names, locateCourses, hsome]⟩
    | numVal n =>
      exact ⟨by simp only [get_all_course_ids, locateCourses, hsome],
             by simp only [get_courses_with_names, locateCourses, hsome]⟩
    | strVal s =>
      exact ⟨by simp only [get_all_course_ids, locateCourses, hsome],
             by simp only [get_courses_with_names, locateCourses, hsome]⟩
    | arrVal elems =>
      exact ⟨by simp only [get_all_course_ids, locateCourses, hsome],
             by simp only [get_courses_with_names, locateCourses, hsome]⟩
  · intro fs dfs rest hdata hcour
    constructor
    · simp only [get_all_course_ids, locateCourses, hdata, hcour]
      rfl
    · simp only [get_courses_with_names, locateCourses, hdata, hcour]
      rfl

/-- C5 witness: the amended statement evaluated on a malformed document
and on a well-formed envelope lacking the courses key. -/
theorem c5_witness :
    (get_all_course_ids (some Json.null) = Except.error DirErr.envelopeError ∧
     get_courses_with_names (some Json.null) = Except.error DirErr.envelopeError) ∧
    (get_all_course_ids
        (some (Json.arrVal [Json.objVal [(strData, Json.objVal [])]])) =
      Except.ok [] ∧
     get_courses_with_names
        (some (Json.arrVal [Json.objVal [(strData, Json.objVal [])]])) =
      Except.ok []) :=
  ⟨c5_amended.2.1 Json.null (fun _ _ h => Json.noConfusion h),
   c5_amended.2.2.2.2.2 [(strData, Json.objVal [])] [] [] rfl rfl⟩

/-
Roster Crawler: extract_course_data from elms_extractor.py.
-/

/-- A name and email pair kept in a roster. -/
structure UserRecord where
  name : List Char
  email : List Char
deriving DecidableEq

/-- A fetched profile page as the crawler inspects it: HTTP status,
presence of the profile-card container div, the text of the first h3
heading inside that container, and the text of the first anchor with an
href inside the first list item of the contentnode class on the page. -/
structure ProfilePage where
  status : Nat
  hasCard : Bool
  nameH3 : Option (List Char)
  emailAnchor : Option (List Char)

/-- The roster listing response: HTTP status, the text of the first h1
heading, and the href values of all anchors carrying the profile-link
class marker, in document order. -/
structure RosterPage where
  status : Nat
  h1Text : Option (List Char)
  anchorHrefs : List (List Char)

/-- Container for extracted course data. -/
structure CourseData where
  course_id : List Char
  course_name : List Char
  course_code : List Char
  users : List UserRecord
deriving DecidableEq

/-- The set comprehension over roster anchors: empty hrefs are dropped and
duplicate hrefs are visited once.  A Python set has no specified iteration
order; the model fixes one order, which the set-equality claims never
depend on. -/
def rosterLinks (roster : RosterPage) : List (List Char) :=
  (roster.anchorHrefs.filter (fun h => h ≠ [])).dedup

inductive ExtractErr where
  | rosterFetchFailed
  | courseNameMissing
deriving DecidableEq

/-- Per-profile step of the crawl loop: skip on a non-200 status or a
missing card container; otherwise strip the extracted name and email and
keep the record only when both are non-empty. -/
def profileUser (p : ProfilePage) : Option UserRecord :=
  if p.status ≠ 200 then none
  else if p.hasCard = false then none
  else
    let name := match p.nameH3 with
      | some s => stripWs s
      | none => []
    let email := match p.emailAnchor with
      | some s => stripWs s
      | none => []
    if name ≠ [] ∧ email ≠ [] then some ⟨name, email⟩ else none

/-- The crawl loop over the profile links, appending kept records in
visit order. -/
def collectUsers (fetch : List Char → ProfilePage) : List (List Char) → List UserRecord
  | [] => []
  | url :: rest =>
    match profileUser (fetch url) with
    | some u => u :: collectUsers fetch rest
    | none => collectUsers fetch rest

/-- Embedding of extract_course_data: the roster argument is the parsed
roster listing response and fetch maps each profile href to its fetched
profile page. -/
def extract_course_data (fetch : List Char → ProfilePage) (roster : RosterPage)
    (course_id : List Char) : Except ExtractErr CourseData :=
  if roster.status ≠ 200 then Except.error ExtractErr.rosterFetchFailed
  else
    match roster.h1Text with
    | none => Except.error ExtractErr.courseNameMissing
    | some t =>
      Except.ok ⟨course_id, stripWs t, derive_course_code (stripWs t),
                 collectUsers fetch (rosterLinks roster)⟩

lemma collectUsers_eq_filterMap (fetch : List Char → ProfilePage)
    (links : List (List Char)) :
    collectUsers fetch links = links.filterMap (fun url => profileUser (fetch url)) := by
  induction links with
  | nil => rfl
  | cons url rest ih =>
    unfold collectUsers
    rw [List.filterMap_cons]
    cases profileUser (fetch url) <;> simp [ih]

/-- C2: when the roster page loads with status 200 and carries a title,
the crawl always returns a result no matter how the individual profile
fetches behave (a single failing profile never aborts), a record is in the
result exactly when some roster link produced it, and a profile with a
non-200 status or without the card container produces no record. -/
theorem c2_crawl (fetch : List Char → ProfilePage) (roster : RosterPage)
    (course_id t : List Char) (h200 : roster.status = 200)
    (ht : roster.h1Text = some t) :
    ∃ cd, extract_course_data fetch roster course_id = Except.ok cd ∧
      (∀ u, u ∈ cd.users ↔
        ∃ url ∈ rosterLinks roster, profileUser (fetch url) = some u) ∧
      (∀ url, ((fetch url).status ≠ 200 ∨ (fetch url).hasCard = false) →
        profileUser (fetch url) = none) := by
  refine ⟨⟨course_id, stripWs t, derive_course_code (stripWs t),
           collectUsers fetch (rosterLinks roster)⟩, ?_, ?_, ?_⟩
  · simp [extract_course_data, h200, ht]
  · intro u
    rw [collectUsers_eq_filterMap]
    exact List.mem_filterMap
  · intro url hbad
    unfold profileUser
    rcases hbad with hs | hc
    · rw [if_pos hs]
    · by_cases hs : (fetch url).status ≠ 200
      · rw [if_pos hs]
      · rw [if_neg hs, if_pos hc]

/-- Concrete profile pages and roster for the C2 witness: three links, one
of which returns a 404. -/
def profOk1 : ProfilePage := ⟨200, true, some ("Alice A".data), some ("alice@x".data)⟩
def prof404 : ProfilePage := ⟨404, true, some ("Bob B".data), some ("bob@x".data)⟩
def profOk2 : ProfilePage := ⟨200, true, some ("Cara C".data), some ("cara@x".data)⟩

def exFetch : List Char → ProfilePage := fun url =>
  if url = "u1".data then profOk1 else if url = "u2".data then prof404 else profOk2

def exRoster : RosterPage :=
  ⟨200, some ("Fall 23 X: s".data), ["u1".data, "u2".data, "u3".data]⟩

/-- C2 witness: the theorem at the three-link roster with one 404, plus
the concrete evaluation showing that exactly the two complete records
survive. -/
theorem c2_witness :
    (∃ cd, extract_course_data exFetch exRoster ("9".data) = Except.ok cd ∧
      (∀ u, u ∈ cd.users ↔
        ∃ url ∈ rosterLinks exRoster, profileUser (exFetch url) = some u) ∧
      (∀ url, ((exFetch url).status ≠ 200 ∨ (exFetch url).hasCard = false) →
        profileUser (exFetch url) = none)) ∧
    extract_course_data exFetch exRoster ("9".data) =
      Except.ok ⟨"9".data, "Fall 23 X: s".data, "X".data,
        [⟨"Alice A".data, "alice@x".data⟩, ⟨"Cara C".data, "cara@x".data⟩]⟩ :=
  ⟨c2_crawl exFetch exRoster ("9".data) ("Fall 23 X: s".data) rfl rfl, rfl⟩

/-
Artifact Serializer: _write_csv, _write_email_list and the email_list
property from elms_extractor.py, together with a standard CSV reader used
to state the round trip.  The csv.writer default dialect delimits fields
with a comma, terminates rows with CR LF, and quotes minimally: a field is
quoted exactly when it contains a comma, a quote or a line-end character,
and embedded quotes are doubled.
-/

/-- Whether minimal quoting must quote this field. -/
def csvNeedsQuote (f : List Char) : Bool :=
  f.any (fun c => c == ',' || c == '"' || c == '\r' || c == '\n')

/-- Double every quote character of the field body. -/
def escQ : List Char → List Char
  | [] => []
  | c :: r => if c = '"' then '"' :: '"' :: escQ r else c :: escQ r

/-- Encode one field under minimal quoting. -/
def encodeField (f : List Char) : List Char :=
  if csvNeedsQuote f then '"' :: (escQ f ++ ['"']) else f

/-- One row body: the encoded fields joined by commas. -/
def rowBody : List (List Char) → List Char
  | [] => []
  | [f] => encodeField f
  | f :: fs => encodeField f ++ ',' :: rowBody fs

/-- One writerow call: the row body terminated by CR LF. -/
def writeRowChars (fields : List (List Char)) : List Char :=
  rowBody fields ++ ['\r', '\n']

def strName : List Char := "Name".data
def strEmail : List Char := "Email".data

/-- Embedding of _write_csv: a header row then one row per user, in
order. -/
def write_csv (users : List UserRecord) : List Char :=
  writeRowChars [strName, strEmail] ++
    (users.map (fun u => writeRowChars [u.name, u.email])).flatten

/-- Embedding of the email_list property of CourseData: the emails of the
users whose email is non-empty under Python truthiness, in order. -/
def email_list (cd : CourseData) : List (List Char) :=
  (cd.users.filter (fun u => u.email ≠ [])).map UserRecord.email

/-- Embedding of _write_email_list: each email followed by one newline. -/
def write_email_list (emails : List (List Char)) : List Char :=
  (emails.map (fun e => e ++ ['\n'])).flatten

/-- Characters that may continue an unquoted field. -/
def plainChar (c : Char) : Bool := !(c == ',') && !(c == '\r') && !(c == '\n')

/-- Parse the interior of a quoted CSV field, starting after the opening
quote; a doubled quote is an escaped quote and a single quote closes the
field.  Returns the field content and the input after the closing
quote. -/
def parseQuoted : List Char → Option (List Char × List Char)
  | [] => none
  | c :: r =>
    if c = '"' then
      match r with
      | [] => some ([], [])
      | c2 :: r2 =>
        if c2 = '"' then (parseQuoted r2).map (fun p => ('"' :: p.1, p.2))
        else some ([], c2 :: r2)
    else (parseQuoted r).map (fun p => (c :: p.1, p.2))

/-- Parse one CSV field: quoted when the input opens with a quote,
otherwise the maximal run of plain characters. -/
def parseField : List Char → Option (List Char × List Char)
  | [] => some ([], [])
  | c :: r =>
    if c = '"' then parseQuoted r
    else some ((c :: r).takeWhile plainChar, (c :: r).dropWhile plainChar)

/-- Parse one record: fields separated by commas and closed by CR LF; the
fuel bounds the number of fields. -/
def parseRecordAux : Nat → List Char → Option (List (List Char) × List Char)
  | 0, _ => none
  | fuel + 1, l =>
    match parseField l with
    | none => none
    | some (f, rest) =>
      match rest with
      | ',' :: r2 =>
        match parseRecordAux fuel r2 with
        | none => none
        | some (fs, r3) => some (f :: fs, r3)
      | '\r' :: '\n' :: r2 => some ([f], r2)
      | _ => none

/-- Parse a whole CSV document into its records; the fuel bounds the
number of records. -/
def parseCsvAux : Nat → List Char → Option (List (List (List Char)))
  | _, [] => some []
  | 0, _ => none
  | fuel + 1, l =>
    match parseRecordAux l.length l with
    | none => none
    | some (r, rest) =>
      match parseCsvAux fuel rest with
      | none => none
      | some rs => some (r :: rs)

/-- Standard CSV reader over the whole document. -/
def parseCsv (l : List Char) : Option (List (List (List Char))) :=
  parseCsvAux l.length l

/-- Split a character list at newline characters; a trailing newline
yields a final empty line. -/
def splitOnNl : List Char → List (List Char)
  | [] => [[]]
  | c :: r =>
    if c = '\n' then [] :: splitOnNl r
    else
      match splitOnNl r with
      | [] => [[c]]
      | h :: t => (c :: h) :: t

lemma parseQuoted_escQ (f rest : List Char) (hrest : rest.head? ≠ some '"') :
    parseQuoted (escQ f ++ '"' :: rest) = some (f, rest) := by
  induction f with
  | nil =>
    show parseQuoted ('"' :: rest) = some ([], rest)
    unfold parseQuoted
    rw [if_pos rfl]
    cases rest with
    | nil => rfl
    | cons c2 t =>
      have hh : c2 ≠ '"' := by
        intro hh
        exact hrest (by rw [hh]; rfl)
      show (if c2 = '"' then (parseQuoted t).map (fun p => ('"' :: p.1, p.2))
            else some ([], c2 :: t)) = some ([], c2 :: t)
      rw [if_neg hh]
  | cons c f2 ih =>
    by_cases hc : c = '"'
    · subst hc
      show parseQuoted ('"' :: '"' :: (escQ f2 ++ '"' :: rest)) =
        some ('"' :: f2, rest)
      unfold parseQuoted
      rw [if_pos rfl]
      show (if ('"' : Char) = '"' then
          (parseQuoted (escQ f2 ++ '"' :: rest)).map (fun p => ('"' :: p.1, p.2))
        else some ([], escQ f2 ++ '"' :: rest)) = some ('"' :: f2, rest)
      rw [if_pos rfl, ih]
      rfl
    · have hesc : escQ (c :: f2) = c :: escQ f2 := by
        simp only [escQ]
        rw [if_neg hc]
      rw [hesc, List.cons_append]
      unfold parseQuoted
      rw [if_neg hc, ih]
      rfl

lemma takeWhile_append_all (p : Char → Bool) (l1 l2 : List Char)
    (h : ∀ c ∈ l1, p c = true) :
    (l1 ++ l2).takeWhile p = l1 ++ l2.takeWhile p := by
  induction l1 with
  | nil => simp
  | cons c r ih =>
    have hc := h c (List.mem_cons_self c r)
    simp only [List.cons_append, List.takeWhile_cons, hc, if_true]
    rw [ih (fun d hd => h d (List.mem_cons_of_mem c hd))]

lemma dropWhile_append_all (p : Char → Bool) (l1 l2 : List Char)
    (h : ∀ c ∈ l1, p c = true) :
    (l1 ++ l2).dropWhile p = l2.dropWhile p := by
  induction l1 with
  | nil => simp
  | cons c r ih =>
    have hc := h c (List.mem_cons_self c r)
    simp only [List.cons_append, List.dropWhile_cons, hc, if_true]
    exact ih (fun d hd => h d (List.mem_cons_of_mem c hd))

lemma plain_of_no_quote (f : List Char) (hq : csvNeedsQuote f = false) :
    ∀ c ∈ f, plainChar c = true := by
  intro c hc
  unfold csvNeedsQuote at hq
  rw [List.any_eq_false] at hq
  have := hq c hc
  simp only [Bool.or_eq_true, beq_iff_eq, not_or] at this
  obtain ⟨⟨⟨h1, h2⟩, h3⟩, h4⟩ := this
  simp [plainChar, h1, h3, h4]

lemma no_quote_mem (f : List Char) (hq : csvNeedsQuote f = false) :
    ∀ c ∈ f, c ≠ '"' := by
  intro c hc
  unfold csvNeedsQuote at hq
  rw [List.any_eq_false] at hq
  have := hq c hc
  simp only [Bool.or_eq_true, beq_iff_eq, not_or] at this
  exact this.1.1.2

lemma parseField_encode (f rest : List Char)
    (hrest : rest.head? = some ',' ∨ rest.head? = some '\r') :
    parseField (encodeField f ++ rest) = some (f, rest) := by
  have hrq : rest.head? ≠ some '"' := by
    rcases hrest with h | h <;> rw [h] <;> intro hh <;>
      exact absurd (Option.some.inj hh) (by decide)
  have hrplain : rest.takeWhile plainChar = [] ∧ rest.dropWhile plainChar = rest := by
    rcases hrest with h | h <;>
      (cases rest with
       | nil => simp at h
       | cons c t =>
         simp only [List.head?_cons, Option.some.injEq] at h
         subst h
         exact ⟨rfl, rfl⟩)
  by_cases hq : csvNeedsQuote f = true
  · have henc : encodeField f ++ rest = '"' :: (escQ f ++ '"' :: rest) := by
      simp [encodeField, hq, List.append_assoc]
    rw [henc]
    show parseQuoted (escQ f ++ '"' :: rest) = some (f, rest)
    exact parseQuoted_escQ f rest hrq
  · have hq2 : csvNeedsQuote f = false := by
      cases h : csvNeedsQuote f
      · rfl
      · exact absurd h hq
    have hplain := plain_of_no_quote f hq2
    have henc : encodeField f ++ rest = f ++ rest := by
      simp [encodeField, hq2]
    rw [henc]
    cases f with
    | nil =>
      show parseField rest = some ([], rest)
      cases rest with
      | nil => rfl
      | cons c t =>
        have hc : c ≠ '"' := by
          intro hh
          exact hrq (by rw [hh]; rfl)
        show (if c = '"' then parseQuoted t
              else some ((c :: t).takeWhile plainChar, (c :: t).dropWhile plainChar)) =
          some ([], c :: t)
        rw [if_neg hc, hrplain.1, hrplain.2]
    | cons c f2 =>
      have hc : c ≠ '"' := no_quote_mem _ hq2 c (List.mem_cons_self c f2)
      show (if c = '"' then parseQuoted (f2 ++ rest)
            else some ((c :: (f2 ++ rest)).takeWhile plainChar,
                       (c :: (f2 ++ rest)).dropWhile plainChar)) = some (c :: f2, rest)
      rw [if_neg hc]
      show some (((c :: f2) ++ rest).takeWhile plainChar,
        ((c :: f2) ++ rest).dropWhile plainChar) = some (c :: f2, rest)
      rw [takeWhile_append_all plainChar (c :: f2) rest hplain,
        dropWhile_append_all plainChar (c :: f2) rest hplain,
        hrplain.1, hrplain.2, List.append_nil]

lemma parseRecordAux_writeRow (fields : List (List Char)) (fuel : Nat)
    (rest : List Char) (hne : fields ≠ []) (hfuel : fields.length ≤ fuel) :
    parseRecordAux fuel (rowBody fields ++ '\r' :: '\n' :: rest) =
      some (fields, rest) := by
  induction fields generalizing fuel rest with
  | nil => exact absurd rfl hne
  | cons f fs ih =>
    cases fuel with
    | zero => simp at hfuel
    | succ fuel2 =>
      cases fs with
      | nil =>
        show parseRecordAux (fuel2 + 1) (encodeField f ++ '\r' :: '\n' :: rest) =
          some ([f], rest)
        unfold parseRecordAux
        rw [parseField_encode f ('\r' :: '\n' :: rest) (Or.inr rfl)]
        rfl
      | cons f2 fs2 =>
        show parseRecordAux (fuel2 + 1)
          ((encodeField f ++ ',' :: rowBody (f2 :: fs2)) ++ '\r' :: '\n' :: rest) =
          some (f :: f2 :: fs2, rest)
        rw [List.append_assoc, List.cons_append]
        unfold parseRecordAux
        rw [parseField_encode f (',' :: (rowBody (f2 :: fs2) ++ '\r' :: '\n' :: rest))
          (Or.inl rfl)]
        have hrec := ih fuel2 rest (by simp) (by
          simp only [List.length_cons] at hfuel ⊢
          omega)
        show (match parseRecordAux fuel2 (rowBody (f2 :: fs2) ++ '\r' :: '\n' :: rest) with
          | none => none
          | some (fs, r3) => some (f :: fs, r3)) = some (f :: f2 :: fs2, rest)
        rw [hrec]

lemma length_le_rowBody (fields : List (List Char)) :
    fields.length ≤ (rowBody fields).length + 1 := by
  induction fields with
  | nil => simp
  | cons f fs ih =>
    cases fs with
    | nil => simp [rowBody]
    | cons f2 fs2 =>
      show (f :: f2 :: fs2).length ≤ (encodeField f ++ ',' :: rowBody (f2 :: fs2)).length + 1
      simp only [List.length_cons, List.length_append] at ih ⊢
      omega

lemma parseCsvAux_rows (rows : List (List (List Char))) (fuel : Nat)
    (hrows : ∀ r ∈ rows, r ≠ []) (hfuel : rows.length ≤ fuel) :
    parseCsvAux fuel ((rows.map writeRowChars).flatten) = some rows := by
  induction rows generalizing fuel with
  | nil => cases fuel <;> rfl
  | cons r rs ih =>
    cases fuel with
    | zero => simp at hfuel
    | succ fuel2 =>
      have hshape : (((r :: rs).map writeRowChars).flatten) =
          rowBody r ++ '\r' :: '\n' :: ((rs.map writeRowChars).flatten) := by
        simp [writeRowChars]
      rw [hshape]
      obtain ⟨c, l2, hcl⟩ : ∃ c l2,
          rowBody r ++ '\r' :: '\n' :: ((rs.map writeRowChars).flatten) = c :: l2 := by
        cases hb : rowBody r with
        | nil =>
          exact ⟨'\r', '\n' :: ((rs.map writeRowChars).flatten), rfl⟩
        | cons c0 t0 =>
          exact ⟨c0, t0 ++ '\r' :: '\n' :: ((rs.map writeRowChars).flatten), rfl⟩
      rw [hcl]
      show (match parseRecordAux (c :: l2).length (c :: l2) with
        | none => none
        | some (rr, rest) =>
          match parseCsvAux fuel2 rest with
          | none => none
          | some rrs => some (rr :: rrs)) = some (r :: rs)
      rw [← hcl]
      have hlen : r.length ≤
          (rowBody r ++ '\r' :: '\n' :: ((rs.map writeRowChars).flatten)).length := by
        have h1 := length_le_rowBody r
        simp only [List.length_append, List.length_cons]
        omega
      rw [parseRecordAux_writeRow r _
        ((rs.map writeRowChars).flatten) (hrows r (List.mem_cons_self r rs)) hlen]
      show (match parseCsvAux fuel2 ((rs.map writeRowChars).flatten) with
        | none => none
        | some rrs => some (r :: rrs)) = some (r :: rs)
      rw [ih fuel2 (fun q hq => hrows q (List.mem_cons_of_mem r hq))
        (by simp only [List.length_cons] at hfuel ⊢; omega)]

lemma rows_length_le_flatten (rows : List (List (List Char))) :
    rows.length ≤ ((rows.map writeRowChars).flatten).length := by
  induction rows with
  | nil => simp
  | cons r rs ih =>
    simp only [List.map_cons, List.flatten_cons, List.length_append,
      List.length_cons]
    have h2 : 2 ≤ (writeRowChars r).length := by
      simp [writeRowChars]
    omega

lemma splitOnNl_append_line (e rest : List Char) (hnl : '\n' ∉ e) :
    splitOnNl (e ++ '\n' :: rest) = e :: splitOnNl rest := by
  induction e with
  | nil =>
    simp [splitOnNl]
  | cons c r ih =>
    have hc : c ≠ '\n' := fun h => hnl (h ▸ List.mem_cons_self c r)
    simp only [List.cons_append, splitOnNl, List.append_eq]
    rw [if_neg hc, ih (fun h => hnl (List.mem_cons_of_mem c h))]

lemma splitOnNl_emailFlatten (emails : List (List Char))
    (hnl : ∀ e ∈ emails, '\n' ∉ e) :
    splitOnNl ((emails.map (fun e => e ++ ['\n'])).flatten) = emails ++ [[]] := by
  induction emails with
  | nil => rfl
  | cons e es ih =>
    simp only [List.map_cons, List.flatten_cons, List.append_assoc,
      List.singleton_append]
    rw [splitOnNl_append_line e _ (hnl e (List.mem_cons_self e es))]
    rw [ih (fun q hq => hnl q (List.mem_cons_of_mem e hq))]
    rfl

/-- Concrete course for the C7 counterexample: one complete user whose
email contains an embedded newline. -/
def c7CexCourse : CourseData :=
  ⟨"1".data, "T".data, "T".data, [⟨"A".data, 'a' :: '\n' :: 'b' :: []⟩]⟩

/-- C7, counterexample: with a complete user whose email embeds a newline,
the email-list artifact does not decode to one line per user, so the
round-trip claim fails as universally stated. -/
theorem c7_counterexample :
    (∀ u ∈ c7CexCourse.users, u.name ≠ [] ∧ u.email ≠ []) ∧
    splitOnNl (write_email_list (email_list c7CexCourse)) ≠
      c7CexCourse.users.map UserRecord.email ++ [[]] := by
  exact ⟨by decide, by decide⟩

/-- C7 (amended): for every CourseData whose users all have non-empty name
and email and whose emails contain no newline character, the tabular
artifact parses back under standard CSV quoting to the header row followed
by one name-email row per user in order (this half needs no newline
hypothesis), and the email-list artifact splits at newlines into exactly
one line per user holding that email, in order, plus the empty tail after
the final newline. -/
theorem c7_roundtrip (cd : CourseData)
    (hne : ∀ u ∈ cd.users, u.name ≠ [] ∧ u.email ≠ [])
    (hnl : ∀ u ∈ cd.users, '\n' ∉ u.email) :
    parseCsv (write_csv cd.users) =
      some ([strName, strEmail] :: cd.users.map (fun u => [u.name, u.email])) ∧
    splitOnNl (write_email_list (email_list cd)) =
      cd.users.map UserRecord.email ++ [[]] := by
  constructor
  · have hjoin : write_csv cd.users =
        ((([strName, strEmail] :: cd.users.map (fun u => [u.name, u.email])).map
          writeRowChars).flatten) := by
      simp [write_csv, List.map_map]
      rfl
    rw [hjoin]
    unfold parseCsv
    apply parseCsvAux_rows
    · intro r hr
      rcases List.mem_cons.mp hr with rfl | hr2
      · simp
      · obtain ⟨u, _, rfl⟩ := List.mem_map.mp hr2
        simp
    · exact rows_length_le_flatten _
  · have hfil : cd.users.filter (fun u => u.email ≠ []) = cd.users := by
      rw [List.filter_eq_self]
      intro u hu
      simpa using (hne u hu).2
    unfold write_email_list email_list
    rw [hfil]
    rw [splitOnNl_emailFlatten (cd.users.map UserRecord.email) (by
      intro e he
      obtain ⟨u, hu, rfl⟩ := List.mem_map.mp he
      exact hnl u hu)]

/-- Concrete course for the C7 witness, with a comma and quotes inside a
name to exercise the quoting rules. -/
def c7WitnessCourse : CourseData :=
  ⟨"1".data, "T".data, "T".data,
   [⟨"Al, \"Boss\"".data, "al@x".data⟩, ⟨"Cara".data, "c@x".data⟩]⟩

/-- C7 witness: the amended round trip evaluated on a concrete course. -/
theorem c7_witness :
    parseCsv (write_csv c7WitnessCourse.users) =
      some ([strName, strEmail] ::
        c7WitnessCourse.users.map (fun u => [u.name, u.email])) ∧
    splitOnNl (write_email_list (email_list c7WitnessCourse)) =
      c7WitnessCourse.users.map UserRecord.email ++ [[]] :=
  c7_roundtrip c7WitnessCourse (by decide) (by decide)

end Elms
